import Mathlib

/-!
Shallow embedding of `src/util/common-translation.ts`.

The module resolves the display language (`findAvailableLanguage`,
`getLocalLanguage`) and fetches translation bundles (`getTranslation`
with an in-memory cache keyed by a fingerprint string).

Embedding conventions:
* A JavaScript object used as a string-keyed map is an association list
  `List (String × β)` in insertion order; the membership test `k in obj`
  is `(jsLookup m k).isSome` and `Object.keys obj` is `m.map Prod.fst`.
* External collaborators are oracle parameters describing their
  observable outcomes: the browser store and `JSON.parse` become a
  `StoredSelection` outcome, `navigator` becomes a `BrowserEnv`, and the
  network `fetch` becomes an outcome function `Nat → Option Nat`
  (outcome of the n-th request issued; `none` models a non-ok HTTP
  status or a transport error, `some d` a body parsed as data `d`).
* `getTranslation` is embedded twice, at two granularities of the same
  source function: `getTranslationRun` runs a call to settlement
  (single caller, promises resolved in order), while
  `getTranslationSync` is the synchronous prefix of a call, up to but
  excluding the first suspension point, returning the cache entry
  (pending or resolved) that the caller's promise tracks.
-/

/-- JavaScript property read `obj[k]` on an object embedded as an
association list in insertion order (`undefined` becomes `none`). -/
def jsLookup {β : Type} (m : List (String × β)) (k : String) : Option β :=
  (m.find? (fun p => p.fst == k)).map Prod.snd

/-- JavaScript `String.prototype.toLowerCase` (ASCII-faithful). -/
def jsToLower (s : String) : String :=
  String.mk (s.toList.map Char.toLower)

/-- The static alias table `LOCALE_LOOKUP` of `common-translation.ts`
(lines 8–16): Chinese locales map to Simplified or Traditional Chinese. -/
def LOCALE_LOOKUP : List (String × String) :=
  [("zh-cn", "zh-Hans"),
   ("zh-sg", "zh-Hans"),
   ("zh-my", "zh-Hans"),
   ("zh-tw", "zh-Hant"),
   ("zh-hk", "zh-Hant"),
   ("zh-mo", "zh-Hant"),
   ("zh", "zh-Hant")]

/-- `findAvailableLanguage` (lines 21–38): exact key match in the
supported-language metadata, then the case-insensitive alias table, then
a case-insensitive scan over the metadata keys.  `meta` embeds
`translationMetadata.translations` as an association list
language ↦ hash. -/
def findAvailableLanguage (meta : List (String × String)) (language : String) :
    Option String :=
  if (jsLookup meta language).isSome then
    some language
  else
    let langLower := jsToLower language
    match jsLookup LOCALE_LOOKUP langLower with
    | some v => some v
    | none => (meta.map Prod.fst).find? (fun lang => jsToLower lang == langLower)

/-- Observable outcome of reading `STORAGE.selectedLanguage` and passing
it through `JSON.parse` (lines 60–71); the store and the parser are
external collaborators, so only their outcome is modelled:
`absent` = entry missing or falsy, `malformed` = `JSON.parse` throws,
`falsy` = parses to a falsy value, `value s` = parses to a truthy
string `s`. -/
inductive StoredSelection where
  | absent : StoredSelection
  | malformed : StoredSelection
  | falsy : StoredSelection
  | value : String → StoredSelection
deriving DecidableEq, Repr

/-- The browser environment read by `getLocalLanguage`:
the stored selection outcome, `navigator.languages` (`none` =
undefined), and `navigator.language` (`""` = absent/falsy). -/
structure BrowserEnv where
  storedSelectedLanguage : StoredSelection
  navigatorLanguages : Option (List String)
  navigatorLanguage : String
deriving DecidableEq, Repr

/-- JavaScript `s.split("-")[0]`: the text before the first hyphen. -/
def baseSubtag (s : String) : String :=
  String.mk (s.toList.takeWhile (fun c => c ≠ '-'))

/-- `getLocalLanguage` (lines 58–94): stored selection, then each entry
of `navigator.languages`, then `navigator.language`, then its base
subtag when it contains a hyphen, then the fixed fallback `"en"`. -/
def getLocalLanguage (meta : List (String × String)) (env : BrowserEnv) : String :=
  match (match env.storedSelectedLanguage with
         | StoredSelection.value s => findAvailableLanguage meta s
         | _ => none) with
  | some l => l
  | none =>
    match (match env.navigatorLanguages with
           | some locales => locales.findSome? (fun locale => findAvailableLanguage meta locale)
           | none => none) with
    | some l => l
    | none =>
      match findAvailableLanguage meta env.navigatorLanguage with
      | some l => l
      | none =>
        if env.navigatorLanguage != "" && env.navigatorLanguage.toList.contains '-' then
          match findAvailableLanguage meta (baseSubtag env.navigatorLanguage) with
          | some l => l
          | none => "en"
        else "en"

/-- Modelled from the spec (§4.1 `getLocalLanguage`): the ordered chain
of signals — stored selection, each preferred language, the primary
language, its base subtag when the primary contains a hyphen — with the
first resolving signal winning and `"en"` as the final fallback.  Kept
separate from `getLocalLanguage` (which is translated from the source)
so the two can be compared. -/
def getLocalLanguageSpec (meta : List (String × String)) (env : BrowserEnv) : String :=
  ((match env.storedSelectedLanguage with
    | StoredSelection.value s => findAvailableLanguage meta s
    | _ => none)
   <|> (env.navigatorLanguages.getD []).findSome? (fun locale => findAvailableLanguage meta locale)
   <|> findAvailableLanguage meta env.navigatorLanguage
   <|> (if env.navigatorLanguage.toList.contains '-' then
          findAvailableLanguage meta (baseSubtag env.navigatorLanguage)
        else none)).getD "en"

section Lemmas

variable {β : Type}

theorem jsLookup_isSome_of_mem_keys {m : List (String × β)} {k : String}
    (h : k ∈ m.map Prod.fst) : (jsLookup m k).isSome := by
  induction m with
  | nil => simp at h
  | cons p m ih =>
    simp only [List.map_cons, List.mem_cons] at h
    by_cases hk : p.fst == k
    · simp [jsLookup, List.find?, hk]
    · rcases h with h | h
      · exact absurd (beq_iff_eq.mpr h.symm) hk
      · simpa [jsLookup, List.find?, hk] using ih h

theorem mem_keys_of_jsLookup_isSome {m : List (String × β)} {k : String}
    (h : (jsLookup m k).isSome) : k ∈ m.map Prod.fst := by
  induction m with
  | nil => simp [jsLookup] at h
  | cons p m ih =>
    by_cases hk : p.fst == k
    · simp [List.map_cons, List.mem_cons, (beq_iff_eq.mp hk).symm]
    · simp only [jsLookup, List.find?, hk] at h
      exact List.mem_cons_of_mem _ (ih h)

theorem jsLookup_some_mem_values {m : List (String × β)} {k : String} {v : β}
    (h : jsLookup m k = some v) : v ∈ m.map Prod.snd := by
  induction m with
  | nil => simp [jsLookup] at h
  | cons p m ih =>
    by_cases hk : p.fst == k
    · simp only [jsLookup, List.find?, hk, Option.map_some'] at h
      simp [(Option.some.inj h).symm]
    · simp only [jsLookup, List.find?, hk] at h
      exact List.mem_cons_of_mem _ (ih h)

end Lemmas

/-- **C6** For every language code that is a key of the supported-language
metadata map, `findAvailableLanguage` applied to that code returns that
exact code. -/
theorem claim_C6_exact_match (meta : List (String × String)) (code : String)
    (h : code ∈ meta.map Prod.fst) :
    findAvailableLanguage meta code = some code := by
  simp [findAvailableLanguage, jsLookup_isSome_of_mem_keys h]

theorem claim_C6_exact_match_witness :
    "zh-Hans" ∈ ([("en", "h1"), ("zh-Hans", "h2")].map Prod.fst) ∧
      findAvailableLanguage [("en", "h1"), ("zh-Hans", "h2")] "zh-Hans" = some "zh-Hans" :=
  ⟨by decide, claim_C6_exact_match [("en", "h1"), ("zh-Hans", "h2")] "zh-Hans" (by decide)⟩

/-- **C7** For every Chinese regional code listed in the alias table, in
any letter casing, `findAvailableLanguage` returns the mapped canonical
script variant, provided the input is not itself a key of the metadata
map. -/
theorem claim_C7_chinese_alias_mapping (meta : List (String × String)) (s : String)
    (h : jsLookup meta s = none) :
    ((jsToLower s = "zh-cn" ∨ jsToLower s = "zh-sg" ∨ jsToLower s = "zh-my") →
        findAvailableLanguage meta s = some "zh-Hans") ∧
    ((jsToLower s = "zh-tw" ∨ jsToLower s = "zh-hk" ∨ jsToLower s = "zh-mo" ∨
        jsToLower s = "zh") →
        findAvailableLanguage meta s = some "zh-Hant") := by
  constructor
  · rintro (hc | hc | hc) <;> (simp only [findAvailableLanguage, h, hc]; rfl)
  · rintro (hc | hc | hc | hc) <;> (simp only [findAvailableLanguage, h, hc]; rfl)

theorem claim_C7_chinese_alias_mapping_witness :
    findAvailableLanguage [("en", "h")] "zh-TW" = some "zh-Hant" :=
  (claim_C7_chinese_alias_mapping [("en", "h")] "zh-TW" (by decide)).2 (Or.inl (by decide))

/-- **C9** Every `some` result of `findAvailableLanguage` is either a key
of the metadata map or one of the alias values `"zh-Hans"`/`"zh-Hant"`;
the alias branch does not check the metadata map, so for a metadata map
lacking the alias target `findAvailableLanguage` can return a code not
in the map, and `getLocalLanguage`'s unchecked final fallback `"en"` can
do the same. -/
theorem claim_C9_unchecked_results :
    (∀ (meta : List (String × String)) (lang v : String),
        findAvailableLanguage meta lang = some v →
        v ∈ meta.map Prod.fst ∨ v = "zh-Hans" ∨ v = "zh-Hant") ∧
    (findAvailableLanguage [("de", "h")] "zh-cn" = some "zh-Hans" ∧
      "zh-Hans" ∉ ([("de", "h")] : List (String × String)).map Prod.fst) ∧
    (getLocalLanguage [("de", "h")] ⟨StoredSelection.absent, none, ""⟩ = "en" ∧
      "en" ∉ ([("de", "h")] : List (String × String)).map Prod.fst) := by
  refine ⟨?_, ⟨by decide, by decide⟩, ⟨by decide, by decide⟩⟩
  intro meta lang v h
  rw [findAvailableLanguage] at h
  by_cases hs : (jsLookup meta lang).isSome
  · rw [if_pos hs] at h
    exact Or.inl ((Option.some.inj h) ▸ mem_keys_of_jsLookup_isSome hs)
  · rw [if_neg hs] at h
    simp only at h
    cases hz : jsLookup LOCALE_LOOKUP (jsToLower lang) with
    | some w =>
      rw [hz] at h
      have hw : w = v := Option.some.inj h
      have hv : v ∈ LOCALE_LOOKUP.map Prod.snd := jsLookup_some_mem_values (hw ▸ hz)
      right
      simpa [LOCALE_LOOKUP] using hv
    | none =>
      rw [hz] at h
      exact Or.inl (List.mem_of_find?_eq_some h)

theorem claim_C9_unchecked_results_witness :
    "zh-Hant" ∈ ([("zh-Hant", "h")] : List (String × String)).map Prod.fst ∨
      "zh-Hant" = "zh-Hans" ∨ "zh-Hant" = "zh-Hant" :=
  claim_C9_unchecked_results.1 [("zh-Hant", "h")] "zh-Hant" "zh-Hant" (by decide)

/-- **C5** `getLocalLanguage` always returns a language code, trying the
stored selection, each preferred language, the primary language, the
primary's base subtag when it contains a hyphen, and finally `"en"`:
it coincides with the spec's ordered signal chain
`getLocalLanguageSpec`. -/
theorem claim_C5_resolver_chain (meta : List (String × String)) (env : BrowserEnv) :
    getLocalLanguage meta env = getLocalLanguageSpec meta env := by
  obtain ⟨st, nl, l⟩ := env
  simp only [getLocalLanguage, getLocalLanguageSpec]
  cases hst : (match st with
               | StoredSelection.value s => findAvailableLanguage meta s
               | _ => none) with
  | some l1 => rfl
  | none =>
    cases nl with
    | none =>
      simp only [Option.getD_none, List.findSome?_nil, Option.none_orElse]
      cases hl : findAvailableLanguage meta l with
      | some l2 => rfl
      | none =>
        by_cases hc : l.toList.contains '-'
        · have hne : l ≠ "" := by
            intro he
            rw [he] at hc
            simp [List.contains] at hc
          simp only [Option.none_orElse, hc, if_pos]
          rw [if_pos (by simp [hne, hc])]
          cases findAvailableLanguage meta (baseSubtag l) <;> rfl
        · simp only [hc, if_neg, Bool.and_false]
          rw [if_neg (by simp [hc])]
          rfl
    | some ls =>
      simp only [Option.getD_some, Option.none_orElse]
      cases hfs : ls.findSome? (fun locale => findAvailableLanguage meta locale) with
      | some l2 => rfl
      | none =>
        cases hl : findAvailableLanguage meta l with
        | some l2 => rfl
        | none =>
          by_cases hc : l.toList.contains '-'
          · have hne : l ≠ "" := by
              intro he
              rw [he] at hc
              simp [List.contains] at hc
            simp only [Option.none_orElse, hc, if_pos]
            rw [if_pos (by simp [hne, hc])]
            cases findAvailableLanguage meta (baseSubtag l) <;> rfl
          · simp only [hc, if_neg, Bool.and_false]
            rw [if_neg (by simp [hc])]
            rfl

/-- **C8** A stored `selectedLanguage` entry that is not valid JSON is
silently ignored: `getLocalLanguage` behaves exactly as if the stored
entry were absent. -/
theorem claim_C8_malformed_store_ignored (meta : List (String × String))
    (nl : Option (List String)) (l : String) :
    getLocalLanguage meta ⟨StoredSelection.malformed, nl, l⟩ =
      getLocalLanguage meta ⟨StoredSelection.absent, nl, l⟩ := rfl

/-- A settled translation result `{ language, data }`; the parsed JSON
body is abstracted as a `Nat` supplied by the fetch oracle. -/
structure TransResult where
  language : String
  data : Nat
deriving DecidableEq, Repr

/-- The errors `getTranslation` can reject with: the fatal configuration
error thrown when `"en"` is missing from the metadata (line 130), and
the fetch error thrown on a non-ok response (lines 112–116), identified
by the fingerprint it was raised for. -/
inductive TransError where
  | enMissing : TransError
  | fetchFailed : String → TransError
deriving DecidableEq, Repr

/-- The fingerprint computed by `getTranslation` (lines 134–136):
`${fragment ? fragment + "/" : ""}${language}-${hash}.json`. -/
def fingerprintOf (fragment : Option String) (language hash : String) : String :=
  (match fragment with
   | some f => if f == "" then "" else f ++ "/"
   | none => "") ++ language ++ "-" ++ hash ++ ".json"

/-- Remove the first occurrence of `pat` from a character list; the
semantics of JavaScript `s.replace(pat, "")` with a string pattern. -/
def removeFirstOcc (pat : List Char) : List Char → List Char
  | [] => []
  | c :: rest =>
    if pat.isPrefixOf (c :: rest) then (c :: rest).drop pat.length
    else c :: removeFirstOcc pat rest

/-- JavaScript `s.replace(pat, "")` for a string pattern: removes the
first occurrence of `pat`, anywhere in `s`. -/
def jsReplaceFirstWithEmpty (s pat : String) : String :=
  String.mk (removeFirstOcc pat.toList s.toList)

/-- The URL requested by `fetchTranslation` (lines 100–111): in
supervisor mode `/api/hassio/app/static/translations/` + the
fingerprint with `fingerprint.replace("supervisor/", "")` applied,
otherwise `/static/translations/` + the fingerprint. -/
def fetchUrl (fingerprint : String) (supervisor : Bool) : String :=
  if supervisor then
    "/api/hassio/app/static/translations/" ++ jsReplaceFirstWithEmpty fingerprint "supervisor/"
  else
    "/static/translations/" ++ fingerprint

/-- State of a settled sequential run of `getTranslation`: the module
cache `translations` (line 98) restricted to settled successful entries,
and the log of network requests issued so far, as
(fingerprint, supervisor) pairs — the URL of each is `fetchUrl`. -/
structure RunState where
  cache : List (String × TransResult)
  fetchLog : List (String × Bool)
deriving DecidableEq, Repr

/-- `getTranslation` (lines 120–152) run to settlement by a single
caller: metadata lookup with `"en"` fallback, fingerprint computation,
cache check, and on a cache miss a fetch whose outcome is
`oracle st.fetchLog.length` (`some d` = parsed body, `none` = non-ok
status or transport error).  A successful fetch settles the cache entry;
a failure leaves no entry (the entry installed at line 140 is deleted by
the catch handler at line 143) and falls back to `"en"` unless the
language already was `"en"`, in which case the error propagates. -/
def getTranslationRun (meta : List (String × String)) (oracle : Nat → Option Nat)
    (fragment : Option String) (language : String) (supervisor : Bool)
    (st : RunState) : Except TransError TransResult × RunState :=
  match jsLookup meta language with
  | none =>
    if _h : language = "en" then (Except.error TransError.enMissing, st)
    else getTranslationRun meta oracle fragment "en" supervisor st
  | some hash =>
    let fingerprint := fingerprintOf fragment language hash
    match jsLookup st.cache fingerprint with
    | some r => (Except.ok r, st)
    | none =>
      let outcome := oracle st.fetchLog.length
      let st1 : RunState := ⟨st.cache, st.fetchLog ++ [(fingerprint, supervisor)]⟩
      match outcome with
      | some d =>
        (Except.ok ⟨language, d⟩, ⟨st1.cache ++ [(fingerprint, ⟨language, d⟩)], st1.fetchLog⟩)
      | none =>
        if _h : language = "en" then (Except.error (TransError.fetchFailed fingerprint), st1)
        else getTranslationRun meta oracle fragment "en" supervisor st1
termination_by (if language = "en" then 0 else 1)
decreasing_by
  all_goals simp_all

/-- A live entry of the `translations` cache: a still-pending promise
(identified by the fetch it awaits) or a resolved one. -/
inductive CacheEntry where
  | pending : Nat → CacheEntry
  | resolved : TransResult → CacheEntry
deriving DecidableEq, Repr

/-- Cache state at the granularity of single scheduler steps: live
entries (pending or resolved), a counter supplying fresh fetch
identities, and the log of requests issued. -/
structure SyncState where
  cache : List (String × CacheEntry)
  nextFetchId : Nat
  fetchLog : List (String × Bool)
deriving DecidableEq, Repr

/-- The synchronous prefix of a `getTranslation` call (lines 120–152):
everything up to but excluding the first suspension point.  Metadata
resolution, the fingerprint, the cache check, and the installation of
the pending entry at line 140 all run without an intervening suspension;
the returned entry is the one the caller's promise tracks.  `none`
models the synchronous throw when `"en"` is missing from metadata. -/
def getTranslationSync (meta : List (String × String)) (fragment : Option String)
    (language : String) (supervisor : Bool) (st : SyncState) :
    Option (CacheEntry × SyncState) :=
  match jsLookup meta language with
  | none =>
    if _h : language = "en" then none
    else getTranslationSync meta fragment "en" supervisor st
  | some hash =>
    let fingerprint := fingerprintOf fragment language hash
    match jsLookup st.cache fingerprint with
    | some e => some (e, st)
    | none =>
      some (CacheEntry.pending st.nextFetchId,
        ⟨st.cache ++ [(fingerprint, CacheEntry.pending st.nextFetchId)],
         st.nextFetchId + 1,
         st.fetchLog ++ [(fingerprint, supervisor)]⟩)
termination_by (if language = "en" then 0 else 1)
decreasing_by
  all_goals simp_all

section CacheLemmas

variable {β : Type}

theorem jsLookup_append_single (m : List (String × β)) (k k' : String) (v : β)
    (h : jsLookup m k' = none) :
    jsLookup (m ++ [(k, v)]) k' = if k == k' then some v else none := by
  induction m with
  | nil => cases hk : (k == k') <;> simp [jsLookup, List.find?, hk]
  | cons p m ih =>
    cases hp : (p.fst == k') with
    | true => simp [jsLookup, List.find?, hp] at h
    | false =>
      simp only [jsLookup, List.cons_append, List.find?, hp] at h ⊢
      exact ih h

theorem jsLookup_append_self (m : List (String × β)) (k : String) (v : β)
    (h : jsLookup m k = none) :
    jsLookup (m ++ [(k, v)]) k = some v := by
  rw [jsLookup_append_single m k k v h]
  simp

theorem jsLookup_append_ne (m : List (String × β)) (k k' : String) (v : β)
    (h : jsLookup m k' = none) (hne : k ≠ k') :
    jsLookup (m ++ [(k, v)]) k' = none := by
  rw [jsLookup_append_single m k k' v h]
  simp [hne]

end CacheLemmas

section RunLemmas

/-- A run at language `"en"` never recurses, so its request log is the
old log plus at most one request. -/
theorem run_en_fetchLog (meta : List (String × String)) (oracle : Nat → Option Nat)
    (fragment : Option String) (supervisor : Bool) (st : RunState) :
    ∃ d, (getTranslationRun meta oracle fragment "en" supervisor st).2.fetchLog =
      st.fetchLog ++ d := by
  rw [getTranslationRun]
  cases hm : jsLookup meta "en" with
  | none => exact ⟨[], by simp⟩
  | some hash =>
    cases hc : jsLookup st.cache (fingerprintOf fragment "en" hash) with
    | some r => exact ⟨[], by simp [hc]⟩
    | none =>
      cases ho : oracle st.fetchLog.length with
      | some d => exact ⟨[(fingerprintOf fragment "en" hash, supervisor)], by simp [hc]⟩
      | none => exact ⟨[(fingerprintOf fragment "en" hash, supervisor)], by simp [hc]⟩

end RunLemmas

/-- **C1** If the requested language is absent from the metadata map and
is not `"en"`, `getTranslation` returns the result of `getTranslation`
with the same fragment and supervisor flag but language `"en"`; if the
requested language is `"en"` and `"en"` is absent, it fails with the
fatal configuration error. -/
theorem claim_C1_missing_metadata_fallback (meta : List (String × String))
    (oracle : Nat → Option Nat) (fragment : Option String) (supervisor : Bool)
    (st : RunState) (language : String)
    (h : jsLookup meta language = none) :
    (language ≠ "en" →
      getTranslationRun meta oracle fragment language supervisor st =
        getTranslationRun meta oracle fragment "en" supervisor st) ∧
    (language = "en" →
      getTranslationRun meta oracle fragment language supervisor st =
        (Except.error TransError.enMissing, st)) := by
  constructor
  · intro hne
    conv_lhs => rw [getTranslationRun]
    simp [h, hne]
  · intro he
    subst he
    rw [getTranslationRun]
    simp [h]

theorem claim_C1_missing_metadata_fallback_witness :
    (getTranslationRun [("en", "h")] (fun _ => none) none "xx" false ⟨[], []⟩ =
      getTranslationRun [("en", "h")] (fun _ => none) none "en" false ⟨[], []⟩) ∧
    (getTranslationRun [] (fun _ => none) none "en" false ⟨[], []⟩ =
      (Except.error TransError.enMissing, ⟨[], []⟩)) :=
  ⟨(claim_C1_missing_metadata_fallback [("en", "h")] (fun _ => none) none false ⟨[], []⟩
      "xx" rfl).1 (by decide),
   (claim_C1_missing_metadata_fallback [] (fun _ => none) none false ⟨[], []⟩
      "en" rfl).2 rfl⟩

/-- A run at language `"en"` never adds a cache entry under a key other
than `"en"`'s own fingerprint. -/
theorem run_en_cache_not_added (meta : List (String × String)) (oracle : Nat → Option Nat)
    (fragment : Option String) (supervisor : Bool) (st : RunState) (fp : String)
    (hfp : jsLookup st.cache fp = none)
    (hne : ∀ hashEn, jsLookup meta "en" = some hashEn →
      fingerprintOf fragment "en" hashEn ≠ fp) :
    jsLookup (getTranslationRun meta oracle fragment "en" supervisor st).2.cache fp = none := by
  rw [getTranslationRun]
  cases hm : jsLookup meta "en" with
  | none => simpa using hfp
  | some hash =>
    cases hc : jsLookup st.cache (fingerprintOf fragment "en" hash) with
    | some r => simpa [hc] using hfp
    | none =>
      cases ho : oracle st.fetchLog.length with
      | some d =>
        simp only [hc, ho]
        exact jsLookup_append_ne _ _ _ _ hfp (hne hash hm)
      | none => simpa [hc, ho] using hfp

/-- **C2** When the fetch for a fingerprint fails, `getTranslation`
leaves no cache entry for that fingerprint (the entry installed at line
140 is deleted by the catch handler), so a later call for the same
fingerprint issues a new request; a failure for a non-`"en"` language
falls back to the result of `getTranslation` at `"en"`, while a failure
for `"en"` itself rejects with the fetch error. -/
theorem claim_C2_fetch_failure_recovery (meta : List (String × String))
    (oracle : Nat → Option Nat) (fragment : Option String) (supervisor : Bool)
    (st : RunState) (language hash : String)
    (h1 : jsLookup meta language = some hash)
    (h2 : jsLookup st.cache (fingerprintOf fragment language hash) = none)
    (h3 : oracle st.fetchLog.length = none) :
    (language ≠ "en" →
      getTranslationRun meta oracle fragment language supervisor st =
        getTranslationRun meta oracle fragment "en" supervisor
          ⟨st.cache, st.fetchLog ++ [(fingerprintOf fragment language hash, supervisor)]⟩) ∧
    (language ≠ "en" →
      ((jsLookup meta "en").all fun hashEn =>
          fingerprintOf fragment "en" hashEn != fingerprintOf fragment language hash) = true →
      jsLookup (getTranslationRun meta oracle fragment language supervisor st).2.cache
        (fingerprintOf fragment language hash) = none) ∧
    (∀ st' : RunState, jsLookup st'.cache (fingerprintOf fragment language hash) = none →
      ∃ rest, (getTranslationRun meta oracle fragment language supervisor st').2.fetchLog =
        st'.fetchLog ++ (fingerprintOf fragment language hash, supervisor) :: rest) ∧
    (language = "en" →
      getTranslationRun meta oracle fragment language supervisor st =
        (Except.error (TransError.fetchFailed (fingerprintOf fragment language hash)),
          ⟨st.cache, st.fetchLog ++ [(fingerprintOf fragment language hash, supervisor)]⟩)) := by
  refine ⟨?_, ?_, ?_, ?_⟩
  · intro hne
    conv_lhs => rw [getTranslationRun]
    simp [h1, h2, h3, hne]
  · intro hne hcol
    have hne' : ∀ hashEn, jsLookup meta "en" = some hashEn →
        fingerprintOf fragment "en" hashEn ≠ fingerprintOf fragment language hash := by
      intro hashEn hm
      rw [hm] at hcol
      simpa using hcol
    rw [getTranslationRun]
    simp only [h1, h2, h3]
    rw [dif_neg hne]
    exact run_en_cache_not_added meta oracle fragment supervisor _ _ h2 hne'
  · intro st' hfp'
    rw [getTranslationRun]
    simp only [h1, hfp']
    cases ho : oracle st'.fetchLog.length with
    | some d => exact ⟨[], by simp⟩
    | none =>
      by_cases hlang : language = "en"
      · subst hlang
        exact ⟨[], by simp⟩
      · rw [dif_neg hlang]
        obtain ⟨rest, hrest⟩ := run_en_fetchLog meta oracle fragment supervisor
          ⟨st'.cache, st'.fetchLog ++ [(fingerprintOf fragment language hash, supervisor)]⟩
        exact ⟨rest, by rw [hrest]; simp⟩
  · intro he
    subst he
    rw [getTranslationRun]
    simp [h1, h2, h3]

theorem claim_C2_fetch_failure_recovery_witness :
    (getTranslationRun [("en", "e"), ("fr", "f")] (fun _ => none) none "fr" false ⟨[], []⟩ =
      getTranslationRun [("en", "e"), ("fr", "f")] (fun _ => none) none "en" false
        ⟨[], [(fingerprintOf none "fr" "f", false)]⟩) ∧
    jsLookup (getTranslationRun [("en", "e"), ("fr", "f")] (fun _ => none) none "fr" false
        ⟨[], []⟩).2.cache (fingerprintOf none "fr" "f") = none ∧
    (getTranslationRun [("en", "e")] (fun _ => none) none "en" false ⟨[], []⟩ =
      (Except.error (TransError.fetchFailed (fingerprintOf none "en" "e")),
        ⟨[], [(fingerprintOf none "en" "e", false)]⟩)) :=
  ⟨(claim_C2_fetch_failure_recovery [("en", "e"), ("fr", "f")] (fun _ => none) none false
      ⟨[], []⟩ "fr" "f" rfl rfl rfl).1 (by decide),
   (claim_C2_fetch_failure_recovery [("en", "e"), ("fr", "f")] (fun _ => none) none false
      ⟨[], []⟩ "fr" "f" rfl rfl rfl).2.1 (by decide) (by decide),
   (claim_C2_fetch_failure_recovery [("en", "e")] (fun _ => none) none false
      ⟨[], []⟩ "en" "e" rfl rfl rfl).2.2.2 rfl⟩

/-- **C3** At most one fetch per fingerprint is in flight: within the
synchronous prefix of a call, a fetch is issued only when no cache entry
exists for the computed fingerprint, the pending entry is installed in
the same synchronous step (before any suspension point), and any call
for the same fingerprint made while the entry is live returns that same
entry without issuing another fetch. -/
theorem claim_C3_request_coalescing (meta : List (String × String))
    (fragment : Option String) (language : String) (supervisor : Bool)
    (st : SyncState) (hash : String)
    (h : jsLookup meta language = some hash) :
    (∀ e, jsLookup st.cache (fingerprintOf fragment language hash) = some e →
      getTranslationSync meta fragment language supervisor st = some (e, st)) ∧
    (∀ e st', getTranslationSync meta fragment language supervisor st = some (e, st') →
      st'.fetchLog ≠ st.fetchLog →
      jsLookup st.cache (fingerprintOf fragment language hash) = none) ∧
    (jsLookup st.cache (fingerprintOf fragment language hash) = none →
      getTranslationSync meta fragment language supervisor st =
        some (CacheEntry.pending st.nextFetchId,
          ⟨st.cache ++ [(fingerprintOf fragment language hash, CacheEntry.pending st.nextFetchId)],
           st.nextFetchId + 1,
           st.fetchLog ++ [(fingerprintOf fragment language hash, supervisor)]⟩) ∧
      getTranslationSync meta fragment language supervisor
          ⟨st.cache ++ [(fingerprintOf fragment language hash, CacheEntry.pending st.nextFetchId)],
           st.nextFetchId + 1,
           st.fetchLog ++ [(fingerprintOf fragment language hash, supervisor)]⟩ =
        some (CacheEntry.pending st.nextFetchId,
          ⟨st.cache ++ [(fingerprintOf fragment language hash, CacheEntry.pending st.nextFetchId)],
           st.nextFetchId + 1,
           st.fetchLog ++ [(fingerprintOf fragment language hash, supervisor)]⟩)) := by
  have hhit : ∀ e, jsLookup st.cache (fingerprintOf fragment language hash) = some e →
      getTranslationSync meta fragment language supervisor st = some (e, st) := by
    intro e he
    rw [getTranslationSync]
    simp [h, he]
  refine ⟨hhit, ?_, ?_⟩
  · intro e st' hrun hlog
    cases hl : jsLookup st.cache (fingerprintOf fragment language hash) with
    | none => rfl
    | some e0 =>
      rw [hhit e0 hl] at hrun
      cases hrun
      exact absurd rfl hlog
  · intro hn
    constructor
    · rw [getTranslationSync]
      simp [h, hn]
    · rw [getTranslationSync]
      have hself := jsLookup_append_self st.cache (fingerprintOf fragment language hash)
        (CacheEntry.pending st.nextFetchId) hn
      simp [h, hself]

theorem claim_C3_request_coalescing_witness :
    (getTranslationSync [("en", "h")] none "en" false ⟨[], 0, []⟩ =
      some (CacheEntry.pending 0,
        ⟨[(fingerprintOf none "en" "h", CacheEntry.pending 0)], 1,
         [(fingerprintOf none "en" "h", false)]⟩)) ∧
    (getTranslationSync [("en", "h")] none "en" false
        ⟨[(fingerprintOf none "en" "h", CacheEntry.pending 0)], 1,
         [(fingerprintOf none "en" "h", false)]⟩ =
      some (CacheEntry.pending 0,
        ⟨[(fingerprintOf none "en" "h", CacheEntry.pending 0)], 1,
         [(fingerprintOf none "en" "h", false)]⟩)) :=
  (claim_C3_request_coalescing [("en", "h")] none "en" false ⟨[], 0, []⟩ "h" rfl).2.2 rfl

/-- **C10** The cache key ignores the supervisor flag: while or after a
call with one supervisor-mode value has a live cache entry for a
fragment/language pair, a call with the other value returns that entry
with the state unchanged, so no request is issued to its own mode's
URL. -/
theorem claim_C10_cache_shared_across_modes (meta : List (String × String))
    (fragment : Option String) (language : String) (st : SyncState) (hash : String)
    (h : jsLookup meta language = some hash) :
    (∀ e sup, jsLookup st.cache (fingerprintOf fragment language hash) = some e →
      getTranslationSync meta fragment language sup st = some (e, st)) ∧
    (jsLookup st.cache (fingerprintOf fragment language hash) = none →
      ∀ sup1 sup2 : Bool,
      getTranslationSync meta fragment language sup1 st =
        some (CacheEntry.pending st.nextFetchId,
          ⟨st.cache ++ [(fingerprintOf fragment language hash, CacheEntry.pending st.nextFetchId)],
           st.nextFetchId + 1,
           st.fetchLog ++ [(fingerprintOf fragment language hash, sup1)]⟩) ∧
      getTranslationSync meta fragment language sup2
          ⟨st.cache ++ [(fingerprintOf fragment language hash, CacheEntry.pending st.nextFetchId)],
           st.nextFetchId + 1,
           st.fetchLog ++ [(fingerprintOf fragment language hash, sup1)]⟩ =
        some (CacheEntry.pending st.nextFetchId,
          ⟨st.cache ++ [(fingerprintOf fragment language hash, CacheEntry.pending st.nextFetchId)],
           st.nextFetchId + 1,
           st.fetchLog ++ [(fingerprintOf fragment language hash, sup1)]⟩)) := by
  constructor
  · intro e sup he
    rw [getTranslationSync]
    simp [h, he]
  · intro hn sup1 sup2
    constructor
    · rw [getTranslationSync]
      simp [h, hn]
    · rw [getTranslationSync]
      have hself := jsLookup_append_self st.cache (fingerprintOf fragment language hash)
        (CacheEntry.pending st.nextFetchId) hn
      simp [h, hself]

theorem claim_C10_cache_shared_across_modes_witness :
    (getTranslationSync [("en", "h")] (some "logbook") "en" true ⟨[], 0, []⟩ =
      some (CacheEntry.pending 0,
        ⟨[(fingerprintOf (some "logbook") "en" "h", CacheEntry.pending 0)], 1,
         [(fingerprintOf (some "logbook") "en" "h", true)]⟩)) ∧
    (getTranslationSync [("en", "h")] (some "logbook") "en" false
        ⟨[(fingerprintOf (some "logbook") "en" "h", CacheEntry.pending 0)], 1,
         [(fingerprintOf (some "logbook") "en" "h", true)]⟩ =
      some (CacheEntry.pending 0,
        ⟨[(fingerprintOf (some "logbook") "en" "h", CacheEntry.pending 0)], 1,
         [(fingerprintOf (some "logbook") "en" "h", true)]⟩)) :=
  (claim_C10_cache_shared_across_modes [("en", "h")] (some "logbook") "en"
      ⟨[], 0, []⟩ "h" rfl).2 rfl true false

/-- Modelled from the spec (§6, claim C4's wording): the supervisor-mode
URL is built "with a `supervisor/` literal prefix stripped from the
fragment before substitution" — i.e. the prefix is removed from the
fragment string itself, and only when it is a prefix.  Kept separate
from `jsReplaceFirstWithEmpty` (which is translated from the source's
`fingerprint.replace("supervisor/", "")`) so the two can be compared. -/
def specStripSupervisorPrefix (fragment : String) : String :=
  if "supervisor/".toList.isPrefixOf fragment.toList then
    String.mk (fragment.toList.drop "supervisor/".toList.length)
  else fragment

/-- **C4 counterexample** For the fragment `"a/supervisor/b"` the code
removes the first occurrence of `"supervisor/"` from the *fingerprint*,
producing `…/a/b/en-h.json`, which differs from the claim's URL built
by stripping a `supervisor/` *prefix from the fragment* (the fragment
has no such prefix, so the claim's URL keeps `a/supervisor/b`). -/
theorem claim_C4_counterexample :
    fetchUrl (fingerprintOf (some "a/supervisor/b") "en" "h") true =
      "/api/hassio/app/static/translations/a/b/en-h.json" ∧
    fetchUrl (fingerprintOf (some "a/supervisor/b") "en" "h") true ≠
      "/api/hassio/app/static/translations/" ++
        fingerprintOf (some (specStripSupervisorPrefix "a/supervisor/b")) "en" "h" := by
  constructor
  · decide
  · decide

/-- **C4 (amended)** For every language present in the metadata map (and
no live cache entry), the request issued by `getTranslation` carries the
fingerprint `[fragment + "/"]? + language + "-" + hash + ".json"` (the
fragment part omitted when the fragment is null or empty); the fetched
path is `/static/translations/` + fingerprint in normal mode, and in
supervisor mode `/api/hassio/app/static/translations/` + the
fingerprint with the *first occurrence* of the literal `"supervisor/"`
removed from the fingerprint. -/
theorem claim_C4_amended_fingerprint_and_paths (meta : List (String × String))
    (oracle : Nat → Option Nat) (fragment : Option String) (language : String)
    (supervisor : Bool) (st : RunState) (hash : String) (d : Nat)
    (h1 : jsLookup meta language = some hash)
    (h2 : jsLookup st.cache (fingerprintOf fragment language hash) = none)
    (h3 : oracle st.fetchLog.length = some d) :
    (getTranslationRun meta oracle fragment language supervisor st).2.fetchLog =
      st.fetchLog ++ [((match fragment with
                        | some f => if f == "" then "" else f ++ "/"
                        | none => "") ++ language ++ "-" ++ hash ++ ".json", supervisor)] ∧
    fetchUrl (fingerprintOf fragment language hash) false =
      "/static/translations/" ++ fingerprintOf fragment language hash ∧
    fetchUrl (fingerprintOf fragment language hash) true =
      "/api/hassio/app/static/translations/" ++
        jsReplaceFirstWithEmpty (fingerprintOf fragment language hash) "supervisor/" := by
  refine ⟨?_, by simp [fetchUrl], by simp [fetchUrl]⟩
  rw [getTranslationRun]
  simp only [h1, h2, h3]
  cases fragment <;> rfl

theorem claim_C4_amended_fingerprint_and_paths_witness :
    (getTranslationRun [("en", "h")] (fun _ => some 7) (some "supervisor") "en" true
        ⟨[], []⟩).2.fetchLog = [("supervisor/en-h.json", true)] ∧
    fetchUrl (fingerprintOf (some "supervisor") "en" "h") false =
      "/static/translations/" ++ fingerprintOf (some "supervisor") "en" "h" ∧
    fetchUrl (fingerprintOf (some "supervisor") "en" "h") true =
      "/api/hassio/app/static/translations/" ++
        jsReplaceFirstWithEmpty (fingerprintOf (some "supervisor") "en" "h") "supervisor/" :=
  claim_C4_amended_fingerprint_and_paths [("en", "h")] (fun _ => some 7) (some "supervisor")
    "en" true ⟨[], []⟩ "h" 7 rfl rfl rfl
